import Mathlib

/-!
Verification development for the StardustXR `cme` explicit-sync shared-image
swapchain (source files `swapchain.rs`, `dmatex.rs`, `format.rs`).

The Rust code is shallowly embedded: `u64` synchronization points and ids are
modelled as `Nat` (the counters only ever grow by small increments from 0),
fallible operations (Rust panics / `Option` collection) are modelled with
`Option`, and the `Arc<Dmatex>` held by a ring slot is identified by its slot
index in the ring.
-/

namespace Cme

/-! ## `swapchain.rs` : the ring of shared images

`Swapchain<IMAGES>` holds `images: [(Arc<Dmatex>, u64); IMAGES]` and a cursor
`next_image: usize`.  We model the per-slot pair by the slot's stored release
point (the `u64`), with the slot's `Dmatex` identified by its index. -/

structure SwapchainState where
  images : List Nat
  next_image : Nat
  deriving DecidableEq, Repr

/-- Rust `Swapchain::new` : every slot's stored release point starts at 0, the
cursor at 0 (each image's timeline is also signalled at point 0, which has no
effect on the point bookkeeping modelled here). -/
def Swapchain.new (n : Nat) : SwapchainState :=
  { images := List.replicate n 0, next_image := 0 }

/-- The value returned by `prepare_next_image` (`SwapchainFrameHandle`);
`image` is the index in the ring of the `Arc<Dmatex>` the handle references. -/
structure SwapchainFrameHandle where
  previous_server_release : Nat
  server_acquire : Nat
  next_server_release : Nat
  image : Nat
  deriving DecidableEq, Repr

/-- Rust `Swapchain::prepare_next_image`, translated line by line.  Indexing
`self.images[self.next_image]` panics when out of bounds (only possible for a
ring of size 0), hence the `Option`.  The source increments the cursor
(mod the array length) before computing the points, but reads the slot
borrowed at the old cursor; the net effect is as written here. -/
def prepare_next_image (st : SwapchainState) : Option (SwapchainFrameHandle × SwapchainState) :=
  match st.images[st.next_image]? with
  | none => none
  | some previous_release =>
    let acquire_point := previous_release + 1
    let previous_server_release := previous_release
    let new_release := acquire_point + 1
    some ({ previous_server_release := previous_server_release
            server_acquire := acquire_point
            next_server_release := new_release
            image := st.next_image },
          { images := st.images.set st.next_image new_release
            next_image := (st.next_image + 1) % st.images.length })

/-- Run `prepare_next_image` `k` times from `st`, collecting the handles in
order. -/
def prepareSteps (st : SwapchainState) : Nat → Option (List SwapchainFrameHandle × SwapchainState)
  | 0 => some ([], st)
  | k + 1 =>
    match prepareSteps st k with
    | none => none
    | some (hs, st') =>
      match prepare_next_image st' with
      | none => none
      | some (h, st'') => some (hs ++ [h], st'')

/-- The handle returned by the `(i+1)`-th acquisition (0-indexed `i`) on a
fresh ring of `n` images. -/
def nthHandle (n i : Nat) : Option SwapchainFrameHandle :=
  (prepareSteps (Swapchain.new n) (i + 1)).bind (fun p => p.1[i]?)

/-- The list of handles produced by `k` acquisitions on a fresh ring of `n`
images. -/
def runHandles (n k : Nat) : Option (List SwapchainFrameHandle) :=
  (prepareSteps (Swapchain.new n) k).map (fun p => p.1)

/-- Rust `DmatexMaterialParam` as filled in by `SwapchainFrameHandle::submit`. -/
structure DmatexMaterialParam where
  dmatex_id : Nat
  acquire_point : Nat
  release_point : Nat
  deriving DecidableEq, Repr

/-- The parameter returned by `SwapchainFrameHandle::submit`: the image's id,
`acquire_point = server_acquire`, `release_point = next_server_release`.
(The image's `dmatex_id` is modelled by the slot index identifying it.) -/
def SwapchainFrameHandle.submit (h : SwapchainFrameHandle) : DmatexMaterialParam :=
  { dmatex_id := h.image
    acquire_point := h.server_acquire
    release_point := h.next_server_release }

/-- The timeline point whose sync file `submit` imports into its wait
semaphore: `export_sync_file_point(self.previous_server_release)`. -/
def SwapchainFrameHandle.submit_wait_point (h : SwapchainFrameHandle) : Nat :=
  h.previous_server_release

/-- The timeline point `blocking_release_wait` blocks on:
`blocking_wait(self.previous_server_release)`. -/
def SwapchainFrameHandle.blocking_wait_point (h : SwapchainFrameHandle) : Nat :=
  h.previous_server_release

/-! ### Closed form of a run of acquisitions -/

/-- Number of times slot `j` has been visited during the first `k`
round-robin acquisitions on a ring of `n` slots. -/
def slotVisits (n k j : Nat) : Nat :=
  k / n + (if j < k % n then 1 else 0)

/-- The per-slot stored release points after `k` acquisitions. -/
def expectedImages (n k : Nat) : List Nat :=
  (List.range n).map (fun j => 2 * slotVisits n k j)

/-- Ring state after `k` acquisitions. -/
def expectedState (n k : Nat) : SwapchainState :=
  { images := expectedImages n k, next_image := k % n }

/-- The handle returned by the acquisition at 0-indexed position `i`. -/
def expectedHandle (n i : Nat) : SwapchainFrameHandle :=
  { previous_server_release := 2 * (i / n)
    server_acquire := 2 * (i / n) + 1
    next_server_release := 2 * (i / n) + 2
    image := i % n }

/-! ## `format.rs` : fourcc / Vulkan format mapping and format enumeration -/

/-- The `drm_fourcc::DrmFourcc` codes relevant to `format.rs`: every variant
named in `VulkanoFormatExtension::from_drm_fourcc`, plus `Nv12` as a
representative fourcc that parses but has no Vulkan mapping there. -/
inductive DrmFourcc where
  | Abgr1555 | Xbgr1555 | Abgr2101010 | Xbgr2101010 | Abgr4444 | Xbgr4444
  | Abgr8888 | Xbgr8888 | Argb1555 | Xrgb1555 | Argb2101010 | Xrgb2101010
  | Argb4444 | Xrgb4444 | Argb8888 | Xrgb8888 | Bgr565 | Bgr888
  | Bgra4444 | Bgrx4444 | Bgra5551 | Bgrx5551 | Bgra8888 | Bgrx8888
  | R16 | R8 | Rg1616 | Rg88 | Rgb565 | Rgb888
  | Rgba4444 | Rgbx4444 | Rgba5551 | Rgbx5551 | Rgba8888 | Rgbx8888
  | Abgr16161616f | Nv12
  deriving DecidableEq, Repr

/-- Rust `drm_fourcc::DrmFourcc::try_from(u32)`: parse a little-endian fourcc code.
The numeric codes are the DRM `fourcc_code('X','Y','Z','W')` values of the
variants modelled above; any other code fails to parse. -/
def DrmFourcc.tryFrom (code : Nat) : Option DrmFourcc :=
  match code with
  | 0x35314241 => some .Abgr1555
  | 0x35314258 => some .Xbgr1555
  | 0x30334241 => some .Abgr2101010
  | 0x30334258 => some .Xbgr2101010
  | 0x32314241 => some .Abgr4444
  | 0x32314258 => some .Xbgr4444
  | 0x34324241 => some .Abgr8888
  | 0x34324258 => some .Xbgr8888
  | 0x35315241 => some .Argb1555
  | 0x35315258 => some .Xrgb1555
  | 0x30335241 => some .Argb2101010
  | 0x30335258 => some .Xrgb2101010
  | 0x32315241 => some .Argb4444
  | 0x32315258 => some .Xrgb4444
  | 0x34325241 => some .Argb8888
  | 0x34325258 => some .Xrgb8888
  | 0x36314742 => some .Bgr565
  | 0x34324742 => some .Bgr888
  | 0x32314142 => some .Bgra4444
  | 0x32315842 => some .Bgrx4444
  | 0x35314142 => some .Bgra5551
  | 0x35315842 => some .Bgrx5551
  | 0x34324142 => some .Bgra8888
  | 0x34325842 => some .Bgrx8888
  | 0x20363152 => some .R16
  | 0x20203852 => some .R8
  | 0x32334752 => some .Rg1616
  | 0x38384752 => some .Rg88
  | 0x36314752 => some .Rgb565
  | 0x34324752 => some .Rgb888
  | 0x32314152 => some .Rgba4444
  | 0x32315852 => some .Rgbx4444
  | 0x35314152 => some .Rgba5551
  | 0x35315852 => some .Rgbx5551
  | 0x34324152 => some .Rgba8888
  | 0x34325852 => some .Rgbx8888
  | 0x48344241 => some .Abgr16161616f
  | 0x3231564E => some .Nv12
  | _ => none

/-- The `vulkano::format::Format` variants named in `format.rs`. -/
inductive Format where
  | R5G5B5A1_UNORM_PACK16
  | A2B10G10R10_UNORM_PACK32
  | A4B4G4R4_UNORM_PACK16
  | R8G8B8A8_UNORM
  | A1R5G5B5_UNORM_PACK16
  | A2R10G10B10_UNORM_PACK32
  | B4G4R4A4_UNORM_PACK16
  | B8G8R8A8_UNORM
  | B5G6R5_UNORM_PACK16
  | B8G8R8_UNORM
  | B5G5R5A1_UNORM_PACK16
  | R16_UNORM
  | R8_UNORM
  | R16G16_UNORM
  | R8G8_UNORM
  | R5G6B5_UNORM_PACK16
  | R8G8B8_UNORM
  | R4G4B4A4_UNORM_PACK16
  | R16G16B16A16_SFLOAT
  | R8_SRGB
  | R8G8_SRGB
  | R8G8B8_SRGB
  | B8G8R8_SRGB
  | R8G8B8A8_SRGB
  | B8G8R8A8_SRGB
  | A8B8G8R8_UNORM_PACK32
  | A8B8G8R8_SRGB_PACK32
  | BC1_RGB_UNORM_BLOCK
  | BC1_RGB_SRGB_BLOCK
  | BC1_RGBA_UNORM_BLOCK
  | BC1_RGBA_SRGB_BLOCK
  | BC2_UNORM_BLOCK
  | BC2_SRGB_BLOCK
  | BC3_UNORM_BLOCK
  | BC3_SRGB_BLOCK
  | BC7_UNORM_BLOCK
  | BC7_SRGB_BLOCK
  | ETC2_R8G8B8_UNORM_BLOCK
  | ETC2_R8G8B8_SRGB_BLOCK
  | ETC2_R8G8B8A1_UNORM_BLOCK
  | ETC2_R8G8B8A1_SRGB_BLOCK
  | ETC2_R8G8B8A8_UNORM_BLOCK
  | ETC2_R8G8B8A8_SRGB_BLOCK
  deriving DecidableEq, Repr

/-- Rust `VulkanoFormatExtension::from_drm_fourcc`, translated arm by arm. -/
def Format.from_drm_fourcc (drm_format : DrmFourcc) : Option Format :=
  match drm_format with
  | .Abgr1555 | .Xbgr1555 => some .R5G5B5A1_UNORM_PACK16
  | .Abgr2101010 | .Xbgr2101010 => some .A2B10G10R10_UNORM_PACK32
  | .Abgr4444 | .Xbgr4444 => some .A4B4G4R4_UNORM_PACK16
  | .Abgr8888 | .Xbgr8888 => some .R8G8B8A8_UNORM
  | .Argb1555 | .Xrgb1555 => some .A1R5G5B5_UNORM_PACK16
  | .Argb2101010 | .Xrgb2101010 => some .A2R10G10B10_UNORM_PACK32
  | .Argb4444 | .Xrgb4444 => some .B4G4R4A4_UNORM_PACK16
  | .Argb8888 | .Xrgb8888 => some .B8G8R8A8_UNORM
  | .Bgr565 => some .B5G6R5_UNORM_PACK16
  | .Bgr888 => some .B8G8R8_UNORM
  | .Bgra4444 | .Bgrx4444 => some .B4G4R4A4_UNORM_PACK16
  | .Bgra5551 | .Bgrx5551 => some .B5G5R5A1_UNORM_PACK16
  | .Bgra8888 | .Bgrx8888 => some .B8G8R8A8_UNORM
  | .R16 => some .R16_UNORM
  | .R8 => some .R8_UNORM
  | .Rg1616 => some .R16G16_UNORM
  | .Rg88 => some .R8G8_UNORM
  | .Rgb565 => some .R5G6B5_UNORM_PACK16
  | .Rgb888 => some .R8G8B8_UNORM
  | .Rgba4444 | .Rgbx4444 => some .R4G4B4A4_UNORM_PACK16
  | .Rgba5551 | .Rgbx5551 => some .R5G5B5A1_UNORM_PACK16
  | .Rgba8888 | .Rgbx8888 => some .R8G8B8A8_UNORM
  | .Abgr16161616f => some .R16G16B16A16_SFLOAT
  | _ => none

/-- Rust `VulkanoFormatExtension::to_srgb`, translated arm by arm. -/
def Format.to_srgb (format : Format) : Option Format :=
  match format with
  | .R8_UNORM => some .R8_SRGB
  | .R8G8_UNORM => some .R8G8_SRGB
  | .R8G8B8_UNORM => some .R8G8B8_SRGB
  | .B8G8R8_UNORM => some .B8G8R8_SRGB
  | .R8G8B8A8_UNORM => some .R8G8B8A8_SRGB
  | .B8G8R8A8_UNORM => some .B8G8R8A8_SRGB
  | .A8B8G8R8_UNORM_PACK32 => some .A8B8G8R8_SRGB_PACK32
  | .BC1_RGB_UNORM_BLOCK => some .BC1_RGB_SRGB_BLOCK
  | .BC1_RGBA_UNORM_BLOCK => some .BC1_RGBA_SRGB_BLOCK
  | .BC2_UNORM_BLOCK => some .BC2_SRGB_BLOCK
  | .BC3_UNORM_BLOCK => some .BC3_SRGB_BLOCK
  | .BC7_UNORM_BLOCK => some .BC7_SRGB_BLOCK
  | .ETC2_R8G8B8_UNORM_BLOCK => some .ETC2_R8G8B8_SRGB_BLOCK
  | .ETC2_R8G8B8A1_UNORM_BLOCK => some .ETC2_R8G8B8A1_SRGB_BLOCK
  | .ETC2_R8G8B8A8_UNORM_BLOCK => some .ETC2_R8G8B8A8_SRGB_BLOCK
  | _ => none

/-- Bytes per texel of the non-block-compressed formats, read off the Vulkan
format names (the per-channel bit widths); `none` for block-compressed
formats, which have no per-pixel byte size. -/
def Format.bytes_per_pixel (format : Format) : Option Nat :=
  match format with
  | .R5G5B5A1_UNORM_PACK16 => some 2
  | .A2B10G10R10_UNORM_PACK32 => some 4
  | .A4B4G4R4_UNORM_PACK16 => some 2
  | .R8G8B8A8_UNORM => some 4
  | .A1R5G5B5_UNORM_PACK16 => some 2
  | .A2R10G10B10_UNORM_PACK32 => some 4
  | .B4G4R4A4_UNORM_PACK16 => some 2
  | .B8G8R8A8_UNORM => some 4
  | .B5G6R5_UNORM_PACK16 => some 2
  | .B8G8R8_UNORM => some 3
  | .B5G5R5A1_UNORM_PACK16 => some 2
  | .R16_UNORM => some 2
  | .R8_UNORM => some 1
  | .R16G16_UNORM => some 4
  | .R8G8_UNORM => some 2
  | .R5G6B5_UNORM_PACK16 => some 2
  | .R8G8B8_UNORM => some 3
  | .R4G4B4A4_UNORM_PACK16 => some 2
  | .R16G16B16A16_SFLOAT => some 8
  | .R8_SRGB => some 1
  | .R8G8_SRGB => some 2
  | .R8G8B8_SRGB => some 3
  | .B8G8R8_SRGB => some 3
  | .R8G8B8A8_SRGB => some 4
  | .B8G8R8A8_SRGB => some 4
  | .A8B8G8R8_UNORM_PACK32 => some 4
  | .A8B8G8R8_SRGB_PACK32 => some 4
  | _ => none

/-- Whether the Vulkan format name denotes an unsigned-normalized encoding
(the name carries `UNORM`). -/
def Format.is_unorm (format : Format) : Bool :=
  match format with
  | .R5G5B5A1_UNORM_PACK16 | .A2B10G10R10_UNORM_PACK32 | .A4B4G4R4_UNORM_PACK16
  | .R8G8B8A8_UNORM | .A1R5G5B5_UNORM_PACK16 | .A2R10G10B10_UNORM_PACK32
  | .B4G4R4A4_UNORM_PACK16 | .B8G8R8A8_UNORM | .B5G6R5_UNORM_PACK16
  | .B8G8R8_UNORM | .B5G5R5A1_UNORM_PACK16 | .R16_UNORM | .R8_UNORM
  | .R16G16_UNORM | .R8G8_UNORM | .R5G6B5_UNORM_PACK16 | .R8G8B8_UNORM
  | .R4G4B4A4_UNORM_PACK16 | .A8B8G8R8_UNORM_PACK32 | .BC1_RGB_UNORM_BLOCK
  | .BC1_RGBA_UNORM_BLOCK | .BC2_UNORM_BLOCK | .BC3_UNORM_BLOCK
  | .BC7_UNORM_BLOCK | .ETC2_R8G8B8_UNORM_BLOCK | .ETC2_R8G8B8A1_UNORM_BLOCK
  | .ETC2_R8G8B8A8_UNORM_BLOCK => true
  | _ => false

/-- Rust `DmatexFormatVariant { modifier: u64, planes: u32 }`. -/
structure DmatexFormatVariant where
  modifier : Nat
  planes : Nat
  deriving DecidableEq, Repr

/-- Rust `DmatexFormat { format, fourcc, variants }`. -/
structure DmatexFormat where
  format : Format
  fourcc : DrmFourcc
  variants : List DmatexFormatVariant
  deriving DecidableEq, Repr

/-- One entry of the server's format enumeration (the `v` iterated over in
`DmatexFormat::enumerate`): `format: u32` fourcc code, `is_srgb`,
`drm_modifier: u64`, `planes: u32`. -/
structure ServerFormatEntry where
  format : Nat
  is_srgb : Bool
  drm_modifier : Nat
  planes : Nat
  deriving DecidableEq, Repr

/-- The per-entry resolution steps of `DmatexFormat::enumerate`: parse the
fourcc, map it to a Vulkan format, and apply the SRGB conversion when
requested.  `none` means the entry is skipped (`continue`). -/
def resolveEntry (v : ServerFormatEntry) : Option (DrmFourcc × Format) :=
  match DrmFourcc.tryFrom v.format with
  | none => none
  | some fourcc =>
    match Format.from_drm_fourcc fourcc with
    | none => none
    | some format =>
      if v.is_srgb then
        match format.to_srgb with
        | none => none
        | some f => some (fourcc, f)
      else
        some (fourcc, format)

/-- Rust `out.entry(format).or_insert_with(..).variants.push(variant)`: the
`HashMap<Format, DmatexFormat>` is modelled as an association list with
distinct keys; a missing key is inserted with an empty variant list. -/
def insertVariant : List (Format × DmatexFormat) → Format → DrmFourcc → DmatexFormatVariant →
    List (Format × DmatexFormat)
  | [], f, fc, var => [(f, { format := f, fourcc := fc, variants := [var] })]
  | (g, d) :: rest, f, fc, var =>
    if g = f then
      (g, { d with variants := d.variants ++ [var] }) :: rest
    else
      (g, d) :: insertVariant rest f fc var

/-- The loop of `DmatexFormat::enumerate` over the server's entries,
accumulating the map `out`. -/
def enumerateAux : List ServerFormatEntry → List (Format × DmatexFormat) →
    List (Format × DmatexFormat)
  | [], out => out
  | v :: rest, out =>
    match resolveEntry v with
    | none => enumerateAux rest out
    | some (fourcc, format) =>
      enumerateAux rest
        (insertVariant out format fourcc { modifier := v.drm_modifier, planes := v.planes })

/-- Rust `DmatexFormat::enumerate`, given the entry list the server returned (the
transport call itself is outside this model; once the list is in hand the
loop cannot fail). -/
def DmatexFormat.enumerate (l : List ServerFormatEntry) : List (Format × DmatexFormat) :=
  enumerateAux l []

/-- Whether an entry survives resolution and lands on Vulkan format `f`. -/
def resolvesTo (f : Format) (v : ServerFormatEntry) : Bool :=
  match resolveEntry v with
  | some (_, g) => decide (g = f)
  | none => false

/-- The variant record an entry contributes. -/
def variantOf (v : ServerFormatEntry) : DmatexFormatVariant :=
  { modifier := v.drm_modifier, planes := v.planes }

/-- The variant list stored under key `f` of the enumeration map (empty when
the key is absent). -/
def lookupVariants (f : Format) (out : List (Format × DmatexFormat)) : List DmatexFormatVariant :=
  match out.find? (fun p => decide (p.1 = f)) with
  | some p => p.2.variants
  | none => []

/-! ## `dmatex.rs` : per-plane memory-type selection and plane registration -/

/-- A Vulkan memory type's property flags, restricted to the two flags
`Dmatex::new` inspects: `DEVICE_LOCAL` and `PROTECTED`. -/
structure MemoryType where
  device_local : Bool
  protected_mem : Bool
  deriving DecidableEq, Repr

/-- The per-plane data `Dmatex::new` reads from each entry of
`raw_image.memory_requirements()`. -/
structure MemoryPlaneRequirements where
  memory_type_bits : Nat
  prefers_dedicated_allocation : Bool
  requires_dedicated_allocation : Bool
  layout_size : Nat
  deriving DecidableEq, Repr

/-- The memory-type scan of `Dmatex::new`:
`memory_types.iter().enumerate().filter(type allowed by memory_type_bits)
.find(DEVICE_LOCAL and not PROTECTED)`, keeping the found index. -/
def findMemoryTypeIndex (memory_types : List MemoryType) (memory_type_bits : Nat) : Option Nat :=
  (((memory_types.enum).filter (fun p => memory_type_bits.testBit p.1)).find?
    (fun p => p.2.device_local && !p.2.protected_mem)).map (fun p => p.1)

/-- The allocation request `Dmatex::new` makes for one plane (dedicated,
DMA-BUF-exportable). -/
structure PlaneAllocation where
  allocation_size : Nat
  memory_type_index : Nat
  deriving DecidableEq, Repr

/-- Processing of one plane: `None` when no eligible memory type exists (the
`else` branch returning `None` in the source). -/
def allocatePlaneMemory (memory_types : List MemoryType) (v : MemoryPlaneRequirements) :
    Option PlaneAllocation :=
  (findMemoryTypeIndex memory_types v.memory_type_bits).map
    (fun i => { allocation_size := v.layout_size, memory_type_index := i })

/-- Rust `collect::<Option<Vec<_>>>()`: the collection is `none` as soon as one
element is `none`. -/
def collectOption {α : Type} : List (Option α) → Option (List α)
  | [] => some []
  | none :: _ => none
  | some x :: rest => (collectOption rest).map (fun l => x :: l)

/-- The whole plane loop: `mem_reqs.iter().map(..).collect::<Option<Vec<_>>>()`
— one failed plane makes the whole collection `None`, and `mems.unwrap()`
then aborts the creation. -/
def allocateDmatexPlanes (memory_types : List MemoryType)
    (mem_reqs : List MemoryPlaneRequirements) : Option (List PlaneAllocation) :=
  collectOption (mem_reqs.map (allocatePlaneMemory memory_types))

/-- Index `i` names a memory type that plane requirements with the given bits
may select: the bit is set and the flags are device-local and not protected. -/
def eligibleIndex (memory_types : List MemoryType) (memory_type_bits : Nat) (i : Nat) : Prop :=
  ∃ mt, memory_types[i]? = some mt ∧ memory_type_bits.testBit i = true ∧
    (mt.device_local && !mt.protected_mem) = true

/-- The exported plane handle list passed to `import_dmatex`:
`fds.into_iter().chain([first_fd])`, where `first_fd = fds[0].try_clone()`
(a panic — `none` — when there are no planes).  The first handle is
duplicated and appended unconditionally. -/
def registeredPlaneFds (fds : List Nat) : Option (List Nat) :=
  match fds with
  | [] => none
  | f :: rest => some ((f :: rest) ++ [f])

/-! ## Lemmas -/

theorem expectedState_zero (n : Nat) : expectedState n 0 = Swapchain.new n := by
  have h : expectedImages n 0 = List.replicate n 0 := by
    apply List.ext_getElem
    · simp [expectedImages]
    · intro i h1 h2
      simp [expectedImages, slotVisits]
  simp [expectedState, Swapchain.new, h]

theorem succ_div_of_mod_lt {n k : Nat} (h : k % n + 1 < n) : (k + 1) / n = k / n := by
  have hn : 0 < n := by omega
  conv_lhs => rw [show k + 1 = n * (k / n) + (k % n + 1) by
    rw [← Nat.add_assoc, Nat.div_add_mod]]
  rw [Nat.mul_add_div hn, Nat.div_eq_of_lt h, Nat.add_zero]

theorem succ_mod_of_mod_lt {n k : Nat} (h : k % n + 1 < n) : (k + 1) % n = k % n + 1 := by
  conv_lhs => rw [show k + 1 = n * (k / n) + (k % n + 1) by
    rw [← Nat.add_assoc, Nat.div_add_mod]]
  rw [Nat.mul_add_mod, Nat.mod_eq_of_lt h]

theorem succ_div_of_mod_eq {n k : Nat} (hn : 0 < n) (h : k % n + 1 = n) :
    (k + 1) / n = k / n + 1 := by
  conv_lhs => rw [show k + 1 = n * (k / n) + (k % n + 1) by
    rw [← Nat.add_assoc, Nat.div_add_mod]]
  rw [h, Nat.mul_add_div hn, Nat.div_self hn]

theorem succ_mod_of_mod_eq {n k : Nat} (h : k % n + 1 = n) : (k + 1) % n = 0 := by
  conv_lhs => rw [show k + 1 = n * (k / n) + (k % n + 1) by
    rw [← Nat.add_assoc, Nat.div_add_mod]]
  rw [h, Nat.mul_add_mod, Nat.mod_self]

theorem range_map_set {n i v : Nat} {f g : Nat → Nat} (hi : i < n) (hv : g i = v)
    (hj : ∀ j, j < n → j ≠ i → g j = f j) :
    ((List.range n).map f).set i v = (List.range n).map g := by
  apply List.ext_getElem
  · simp
  · intro j h1 h2
    have hjn : j < n := by simpa using h2
    rcases eq_or_ne j i with rfl | hne
    · rw [List.getElem_set_self (by simpa using hi), List.getElem_map, List.getElem_range, hv]
    · rw [List.getElem_set_ne (fun hc => hne hc.symm)]
      simp only [List.getElem_map, List.getElem_range]
      exact (hj j hjn hne).symm

/-- One acquisition advances the closed-form state as expected. -/
theorem prepare_expectedState (n k : Nat) (hn : 1 ≤ n) :
    prepare_next_image (expectedState n k) =
      some (expectedHandle n k, expectedState n (k + 1)) := by
  have hklt : k % n < n := Nat.mod_lt _ hn
  have hget : (expectedImages n k)[k % n]? = some (2 * (k / n)) := by
    simp only [expectedImages]
    rw [List.getElem?_map, List.getElem?_range hklt]
    simp [slotVisits]
  have hlen : (expectedImages n k).length = n := by
    simp [expectedImages]
  simp only [prepare_next_image, expectedState, hget]
  have hcursor : (k % n + 1) % n = (k + 1) % n := Nat.mod_add_mod k n 1
  have himg : (expectedImages n k).set (k % n) (2 * (k / n) + 1 + 1) =
      expectedImages n (k + 1) := by
    simp only [expectedImages]
    rcases Nat.lt_or_ge (k % n + 1) n with hlt | hge
    · apply range_map_set hklt
      · simp only [slotVisits, succ_div_of_mod_lt hlt, succ_mod_of_mod_lt hlt]
        rw [if_pos (Nat.lt_succ_self _)]
        ring
      · intro j hjn hne
        simp only [slotVisits, succ_div_of_mod_lt hlt, succ_mod_of_mod_lt hlt]
        congr 1
        congr 1
        rcases Nat.lt_or_ge j (k % n) with hj | hj
        · rw [if_pos hj, if_pos (Nat.lt_succ_of_lt hj)]
        · rw [if_neg (Nat.not_lt.mpr hj),
            if_neg (Nat.not_lt.mpr (Nat.lt_of_le_of_ne hj (Ne.symm hne)))]
    · have heq : k % n + 1 = n := Nat.le_antisymm hklt hge
      apply range_map_set hklt
      · simp only [slotVisits, succ_div_of_mod_eq (Nat.lt_of_lt_of_le Nat.zero_lt_one hn) heq,
          succ_mod_of_mod_eq heq]
        rw [if_neg (Nat.not_lt_zero _)]
        ring
      · intro j hjn hne
        simp only [slotVisits, succ_div_of_mod_eq (Nat.lt_of_lt_of_le Nat.zero_lt_one hn) heq,
          succ_mod_of_mod_eq heq]
        rw [if_neg (Nat.not_lt_zero _),
          if_pos (by omega : j < k % n)]
  simp only [expectedHandle, hlen, hcursor, himg]

/-- Closed form of a full run: the `k` handles and the resulting ring state on
a fresh ring of `n ≥ 1` images. -/
theorem prepareSteps_eq (n : Nat) (hn : 1 ≤ n) (k : Nat) :
    prepareSteps (Swapchain.new n) k =
      some ((List.range k).map (expectedHandle n), expectedState n k) := by
  induction k with
  | zero => simp [prepareSteps, expectedState_zero]
  | succ k ih =>
    simp only [prepareSteps, ih, prepare_expectedState n k hn, List.range_succ, List.map_append,
      List.map_cons, List.map_nil]

theorem nthHandle_eq (n : Nat) (hn : 1 ≤ n) (i : Nat) :
    nthHandle n i = some (expectedHandle n i) := by
  rw [nthHandle, prepareSteps_eq n hn (i + 1)]
  show ((List.range (i + 1)).map (expectedHandle n))[i]? = some (expectedHandle n i)
  rw [List.getElem?_map, List.getElem?_range (Nat.lt_succ_self i)]
  rfl

/-- On a fresh ring of `n` slots, the `t`-th acquisition (0-indexed) of slot
`s` is the run's acquisition number `s + n * t`, and its points are
`(2t, 2t+1, 2t+2)`. -/
theorem nthHandle_slot (n s t : Nat) (hn : 1 ≤ n) (hs : s < n) :
    nthHandle n (s + n * t) =
      some { previous_server_release := 2 * t, server_acquire := 2 * t + 1
             next_server_release := 2 * t + 2, image := s } := by
  rw [nthHandle_eq n hn]
  have hdiv : (s + n * t) / n = t := by
    rw [Nat.add_mul_div_left s t (by omega), Nat.div_eq_of_lt hs, Nat.zero_add]
  have hmod : (s + n * t) % n = s := by
    rw [Nat.add_mul_mod_self_left, Nat.mod_eq_of_lt hs]
  simp [expectedHandle, hdiv, hmod]

theorem lookupVariants_insertVariant (f g : Format) (fc : DrmFourcc)
    (var : DmatexFormatVariant) :
    ∀ out : List (Format × DmatexFormat),
      lookupVariants f (insertVariant out g fc var) =
        lookupVariants f out ++ (if g = f then [var] else []) := by
  intro out
  induction out with
  | nil =>
    by_cases hgf : g = f
    · subst hgf
      simp [insertVariant, lookupVariants]
    · simp [insertVariant, lookupVariants, hgf]
  | cons hd rest ih =>
    obtain ⟨a, d⟩ := hd
    simp only [insertVariant]
    by_cases hag : a = g
    · rw [if_pos hag]
      by_cases haf : a = f
      · have hgf : g = f := hag.symm.trans haf
        rw [if_pos hgf]
        simp only [lookupVariants]
        rw [List.find?_cons_of_pos _ (by simp [haf]), List.find?_cons_of_pos _ (by simp [haf])]
      · have hgf : g ≠ f := fun h => haf (hag.trans h)
        rw [if_neg hgf]
        simp only [lookupVariants]
        rw [List.find?_cons_of_neg _ (by simp [haf]), List.find?_cons_of_neg _ (by simp [haf]),
          List.append_nil]
    · rw [if_neg hag]
      simp only [lookupVariants] at ih ⊢
      by_cases haf : a = f
      · rw [List.find?_cons_of_pos _ (by simp [haf]), List.find?_cons_of_pos _ (by simp [haf])]
        have hgf : g ≠ f := fun h => hag (haf.trans h.symm)
        rw [if_neg hgf, List.append_nil]
      · rw [List.find?_cons_of_neg _ (by simp [haf]), List.find?_cons_of_neg _ (by simp [haf])]
        exact ih

theorem lookupVariants_enumerateAux (f : Format) :
    ∀ (l : List ServerFormatEntry) (out : List (Format × DmatexFormat)),
      lookupVariants f (enumerateAux l out) =
        lookupVariants f out ++ (l.filter (resolvesTo f)).map variantOf := by
  intro l
  induction l with
  | nil => intro out; simp [enumerateAux]
  | cons v rest ih =>
    intro out
    cases hv : resolveEntry v with
    | none =>
      have hres : resolvesTo f v = false := by simp [resolvesTo, hv]
      simp only [enumerateAux, hv]
      rw [List.filter_cons_of_neg (by simp [hres])]
      exact ih out
    | some p =>
      obtain ⟨fc, g⟩ := p
      simp only [enumerateAux, hv]
      rw [ih _, lookupVariants_insertVariant]
      by_cases hgf : g = f
      · have hres : resolvesTo f v = true := by simp [resolvesTo, hv, hgf]
        rw [List.filter_cons_of_pos (by simp [hres]), if_pos hgf]
        simp [variantOf, List.append_assoc]
      · have hres : resolvesTo f v = false := by simp [resolvesTo, hv, hgf]
        rw [List.filter_cons_of_neg (by simp [hres]), if_neg hgf]
        simp

theorem lookupVariants_enumerate (f : Format) (l : List ServerFormatEntry) :
    lookupVariants f (DmatexFormat.enumerate l) = (l.filter (resolvesTo f)).map variantOf := by
  rw [DmatexFormat.enumerate, lookupVariants_enumerateAux]
  simp [lookupVariants]

theorem keys_insertVariant (g : Format) (fc : DrmFourcc) (var : DmatexFormatVariant) :
    ∀ out : List (Format × DmatexFormat),
      (insertVariant out g fc var).map Prod.fst =
        if g ∈ out.map Prod.fst then out.map Prod.fst else out.map Prod.fst ++ [g] := by
  intro out
  induction out with
  | nil => simp [insertVariant]
  | cons hd rest ih =>
    obtain ⟨a, d⟩ := hd
    simp only [insertVariant, List.map_cons]
    by_cases hag : a = g
    · rw [if_pos hag, if_pos (by simp [hag]), List.map_cons]
    · rw [if_neg hag, List.map_cons, ih]
      by_cases hmem : g ∈ rest.map Prod.fst
      · rw [if_pos hmem, if_pos (by simp [hmem])]
      · have hnotin : g ∉ a :: rest.map Prod.fst := by
          intro hc
          rcases List.mem_cons.mp hc with h | h
          · exact hag h.symm
          · exact hmem h
        rw [if_neg hmem, if_neg hnotin]
        simp

theorem keys_nodup_insertVariant {out : List (Format × DmatexFormat)}
    (h : (out.map Prod.fst).Nodup) (g : Format) (fc : DrmFourcc) (var : DmatexFormatVariant) :
    ((insertVariant out g fc var).map Prod.fst).Nodup := by
  rw [keys_insertVariant]
  by_cases hmem : g ∈ out.map Prod.fst
  · rwa [if_pos hmem]
  · rw [if_neg hmem]
    refine List.Nodup.append h (List.nodup_singleton g) ?_
    intro a ha hb
    rw [List.mem_singleton] at hb
    exact hmem (hb ▸ ha)

theorem keys_nodup_enumerateAux :
    ∀ (l : List ServerFormatEntry) (out : List (Format × DmatexFormat)),
      (out.map Prod.fst).Nodup → ((enumerateAux l out).map Prod.fst).Nodup := by
  intro l
  induction l with
  | nil => intro out h; simpa [enumerateAux] using h
  | cons v rest ih =>
    intro out h
    cases hv : resolveEntry v with
    | none =>
      simp only [enumerateAux, hv]
      exact ih out h
    | some p =>
      obtain ⟨fc, g⟩ := p
      simp only [enumerateAux, hv]
      exact ih _ (keys_nodup_insertVariant h g fc _)

theorem countP_key_eq_one :
    ∀ (out : List (Format × DmatexFormat)) (f : Format) (d : DmatexFormat),
      (out.map Prod.fst).Nodup → (f, d) ∈ out →
      out.countP (fun p => decide (p.1 = f)) = 1 := by
  intro out
  induction out with
  | nil => intro f d _ hmem; cases hmem
  | cons hd rest ih =>
    intro f d hnd hmem
    obtain ⟨a, d0⟩ := hd
    rw [List.map_cons, List.nodup_cons] at hnd
    rw [List.countP_cons]
    rcases List.mem_cons.mp hmem with heq | hmem'
    · have hfa : a = f := by cases heq; rfl
      have h0 : rest.countP (fun p => decide (p.1 = f)) = 0 := by
        apply List.countP_eq_zero.mpr
        intro p hp hdec
        have hpf : p.1 = f := of_decide_eq_true hdec
        have hmm := List.mem_map_of_mem Prod.fst hp
        rw [hpf, ← hfa] at hmm
        exact hnd.1 hmm
      rw [h0, if_pos (by simp [hfa])]
    · have hfmem : f ∈ rest.map Prod.fst :=
        List.mem_map_of_mem Prod.fst hmem'
      have haf : a ≠ f := fun h => hnd.1 (h ▸ hfmem)
      rw [ih f d hnd.2 hmem', if_neg (by simp [haf])]

theorem collectOption_eq_none_of_mem {α : Type} :
    ∀ l : List (Option α), none ∈ l → collectOption l = none := by
  intro l
  induction l with
  | nil => intro h; cases h
  | cons x rest ih =>
    intro h
    cases x with
    | none => rfl
    | some v =>
      have hm : (none : Option α) ∈ rest := by
        rcases List.mem_cons.mp h with h' | h'
        · cases h'
        · exact h'
      rw [show collectOption (some v :: rest) = (collectOption rest).map (fun l => v :: l)
        from rfl, ih hm]
      rfl

/-- Soundness of the enumerate-filter-find scan over `enumFrom`: a hit is an
allowed, device-local, non-protected type, and every earlier allowed index
was rejected by the flag test. -/
theorem find_enumFrom_spec (bits : Nat) :
    ∀ (l : List MemoryType) (start i : Nat) (mt : MemoryType),
      ((List.enumFrom start l).filter (fun p => bits.testBit p.1)).find?
          (fun p => p.2.device_local && !p.2.protected_mem) = some (i, mt) →
      start ≤ i ∧ l[i - start]? = some mt ∧ bits.testBit i = true ∧
        (mt.device_local && !mt.protected_mem) = true ∧
        ∀ j, start ≤ j → j < i → ∀ mt', l[j - start]? = some mt' →
          bits.testBit j = true → (mt'.device_local && !mt'.protected_mem) = false := by
  intro l
  induction l with
  | nil => intro start i mt h; simp [List.enumFrom] at h
  | cons x xs ih =>
    intro start i mt h
    rw [show List.enumFrom start (x :: xs) = (start, x) :: List.enumFrom (start + 1) xs from rfl]
      at h
    by_cases hb : bits.testBit start
    · rw [List.filter_cons_of_pos (by simpa using hb)] at h
      by_cases hd : (x.device_local && !x.protected_mem) = true
      · rw [List.find?_cons_of_pos _ (by simpa using hd)] at h
        obtain ⟨hi, hmt⟩ : start = i ∧ x = mt := by
          have := Option.some.inj h
          exact ⟨congrArg Prod.fst this, congrArg Prod.snd this⟩
        subst hi
        subst hmt
        refine ⟨Nat.le_refl _, by simp, hb, hd, ?_⟩
        intro j hj1 hj2 _ _ _
        omega
      · rw [List.find?_cons_of_neg _ (by simpa using hd)] at h
        obtain ⟨hle, hget, hbit, hflag, hfirst⟩ := ih (start + 1) i mt h
        refine ⟨by omega, ?_, hbit, hflag, ?_⟩
        · have : i - start = (i - (start + 1)) + 1 := by omega
          rw [this, List.getElem?_cons_succ]
          exact hget
        · intro j hj1 hj2 mt' hget' hbit'
          rcases Nat.eq_or_lt_of_le hj1 with rfl | hgt
          · have hx : mt' = x := by
              rw [Nat.sub_self, List.getElem?_cons_zero] at hget'
              exact (Option.some.inj hget').symm
            subst hx
            exact Bool.eq_false_iff.mpr hd
          · have hshift : j - start = (j - (start + 1)) + 1 := by omega
            rw [hshift, List.getElem?_cons_succ] at hget'
            exact hfirst j hgt hj2 mt' hget' hbit'
    · rw [List.filter_cons_of_neg (by simpa using hb)] at h
      obtain ⟨hle, hget, hbit, hflag, hfirst⟩ := ih (start + 1) i mt h
      refine ⟨by omega, ?_, hbit, hflag, ?_⟩
      · have : i - start = (i - (start + 1)) + 1 := by omega
        rw [this, List.getElem?_cons_succ]
        exact hget
      · intro j hj1 hj2 mt' hget' hbit'
        rcases Nat.eq_or_lt_of_le hj1 with rfl | hgt
        · exact absurd hbit' (by simpa using hb)
        · have hshift : j - start = (j - (start + 1)) + 1 := by omega
          rw [hshift, List.getElem?_cons_succ] at hget'
          exact hfirst j hgt hj2 mt' hget' hbit'

/-- Soundness of `findMemoryTypeIndex`: a returned index is eligible, and no
smaller index is. -/
theorem findMemoryTypeIndex_some_spec {memory_types : List MemoryType} {bits i : Nat}
    (h : findMemoryTypeIndex memory_types bits = some i) :
    eligibleIndex memory_types bits i ∧ ∀ j, j < i → ¬ eligibleIndex memory_types bits j := by
  rw [findMemoryTypeIndex] at h
  rcases Option.map_eq_some'.mp h with ⟨⟨i', mt⟩, hfind, hi⟩
  simp only at hi
  subst hi
  have hspec := find_enumFrom_spec bits memory_types 0 i' mt (by simpa [List.enum] using hfind)
  obtain ⟨-, hget, hbit, hflag, hfirst⟩ := hspec
  rw [Nat.sub_zero] at hget
  constructor
  · exact ⟨mt, hget, hbit, hflag⟩
  · intro j hj helig
    obtain ⟨mt', hget', hbit', hflag'⟩ := helig
    have := hfirst j (Nat.zero_le j) hj mt' (by simpa using hget') hbit'
    rw [hflag'] at this
    cases this

/-! ## Claims -/

/-- C1: each `prepare_next_image` call returns a handle whose
`previous_server_release` is the slot's stored release point, whose
`server_acquire` is that plus 1 and `next_server_release` that plus 2, and
stores `next_server_release` back into the slot; consequently, on a fresh
ring of `n` slots the `t`-th revisit (0-indexed) of slot `s` — run position
`s + n*t` — observes `previous_server_release = 2*t`: the values start at 0
and grow by exactly 2 each time the slot is revisited. -/
theorem C1_prepare_points :
    (∀ (st : SwapchainState) (prev : Nat), st.images[st.next_image]? = some prev →
      prepare_next_image st =
        some ({ previous_server_release := prev, server_acquire := prev + 1
                next_server_release := prev + 2, image := st.next_image },
              { images := st.images.set st.next_image (prev + 2)
                next_image := (st.next_image + 1) % st.images.length }))
    ∧ (∀ n s t : Nat, 1 ≤ n → s < n →
        nthHandle n (s + n * t) =
          some { previous_server_release := 2 * t, server_acquire := 2 * t + 1
                 next_server_release := 2 * t + 2, image := s }) := by
  constructor
  · intro st prev hget
    unfold prepare_next_image
    rw [hget]
  · exact nthHandle_slot

theorem C1_prepare_points_witness :
    prepare_next_image { images := [4, 0, 2], next_image := 0 } =
      some ({ previous_server_release := 4, server_acquire := 5
              next_server_release := 6, image := 0 },
            { images := [6, 0, 2], next_image := 1 })
    ∧ nthHandle 3 7 =
      some { previous_server_release := 4, server_acquire := 5
             next_server_release := 6, image := 1 } := by
  constructor
  · exact C1_prepare_points.1 { images := [4, 0, 2], next_image := 0 } 4 rfl
  · exact C1_prepare_points.2 3 1 2 (by decide) (by decide)

/-- C2: on a fresh ring of `n ≥ 1` slots the `(i+1)`-th acquisition returns
slot `i % n`; concretely, with `n = 3`, five acquisitions yield slot order
`0,1,2,0,1` and `server_acquire` sequence `1,1,1,3,3`. -/
theorem C2_round_robin :
    (∀ n i : Nat, 1 ≤ n → ∃ h, nthHandle n i = some h ∧ h.image = i % n)
    ∧ (runHandles 3 5).map (fun hs => hs.map SwapchainFrameHandle.image) =
        some [0, 1, 2, 0, 1]
    ∧ (runHandles 3 5).map (fun hs => hs.map SwapchainFrameHandle.server_acquire) =
        some [1, 1, 1, 3, 3] := by
  refine ⟨?_, by decide, by decide⟩
  intro n i hn
  exact ⟨expectedHandle n i, nthHandle_eq n hn i, rfl⟩

theorem C2_round_robin_witness :
    ∃ h, nthHandle 3 4 = some h ∧ h.image = 4 % 3 :=
  C2_round_robin.1 3 4 (by decide)

/-- C3: the `release_point` of the `DmatexMaterialParam` returned by the
`t`-th submit on a slot equals the `previous_server_release` the `(t+1)`-th
acquisition of that slot observes, which is also the point that acquisition's
submit waits on (`submit_wait_point`). -/
theorem C3_release_point_round_trip :
    ∀ n s t : Nat, 1 ≤ n → s < n →
      ∃ h h', nthHandle n (s + n * t) = some h ∧
        nthHandle n (s + n * (t + 1)) = some h' ∧
        h.image = s ∧ h'.image = s ∧
        h.submit.release_point = h'.previous_server_release ∧
        h'.submit_wait_point = h.submit.release_point := by
  intro n s t hn hs
  refine ⟨_, _, nthHandle_slot n s t hn hs, nthHandle_slot n s (t + 1) hn hs, rfl, rfl, ?_, ?_⟩
  · show 2 * t + 2 = 2 * (t + 1)
    ring
  · show 2 * (t + 1) = 2 * t + 2
    ring

theorem C3_release_point_round_trip_witness :
    ∃ h h', nthHandle 3 (0 + 3 * 0) = some h ∧ nthHandle 3 (0 + 3 * (0 + 1)) = some h' ∧
      h.image = 0 ∧ h'.image = 0 ∧
      h.submit.release_point = h'.previous_server_release ∧
      h'.submit_wait_point = h.submit.release_point :=
  C3_release_point_round_trip 3 0 0 (by decide) (by decide)

/-- C4 counterexample: with two memory planes (handles `[10, 20]`) the
registered plane list does not have 2 entries — the first handle is
duplicated and appended unconditionally, giving 3 entries. -/
theorem C4_plane_list_counterexample :
    ¬ ((registeredPlaneFds [10, 20]).map List.length = some 2) := by
  decide

/-- C4 (amended): for every non-empty plane handle list the registered plane
list is the handles in order followed by a duplicate of the first handle —
`planeCount + 1` entries for every `planeCount ≥ 1` (so 2 entries when
`planeCount = 1`, but `planeCount + 1`, not `planeCount`, when
`planeCount ≥ 2`). -/
theorem C4_plane_list :
    ∀ (f : Nat) (rest : List Nat),
      registeredPlaneFds (f :: rest) = some ((f :: rest) ++ [f]) ∧
        ((f :: rest) ++ [f]).length = (f :: rest).length + 1 := by
  intro f rest
  exact ⟨rfl, by simp⟩

/-- C5: a memory type selected for a plane is the lowest-index type allowed
by the plane's `memory_type_bits` that is device-local and not
protected-memory; and if some plane of the image has no eligible memory type
at all, the whole plane allocation — and with it the image creation — fails. -/
theorem C5_memory_type_selection :
    (∀ (memory_types : List MemoryType) (bits i : Nat),
        findMemoryTypeIndex memory_types bits = some i →
        eligibleIndex memory_types bits i ∧
          ∀ j, j < i → ¬ eligibleIndex memory_types bits j)
    ∧ (∀ (memory_types : List MemoryType) (mem_reqs : List MemoryPlaneRequirements)
          (v : MemoryPlaneRequirements), v ∈ mem_reqs →
        (∀ i, ¬ eligibleIndex memory_types v.memory_type_bits i) →
        allocateDmatexPlanes memory_types mem_reqs = none) := by
  constructor
  · intro memory_types bits i h
    exact findMemoryTypeIndex_some_spec h
  · intro memory_types mem_reqs v hv hno
    have hfind : findMemoryTypeIndex memory_types v.memory_type_bits = none := by
      cases hf : findMemoryTypeIndex memory_types v.memory_type_bits with
      | none => rfl
      | some i => exact absurd (findMemoryTypeIndex_some_spec hf).1 (hno i)
    have halloc : allocatePlaneMemory memory_types v = none := by
      rw [allocatePlaneMemory, hfind]
      rfl
    apply collectOption_eq_none_of_mem
    rw [← halloc]
    exact List.mem_map_of_mem _ hv

theorem C5_memory_type_selection_witness :
    (eligibleIndex [{ device_local := false, protected_mem := false },
        { device_local := true, protected_mem := false }] 3 1 ∧
      ∀ j, j < 1 → ¬ eligibleIndex [{ device_local := false, protected_mem := false },
        { device_local := true, protected_mem := false }] 3 j) ∧
    allocateDmatexPlanes [{ device_local := true, protected_mem := true }]
      [{ memory_type_bits := 1, prefers_dedicated_allocation := true
         requires_dedicated_allocation := false, layout_size := 4096 }] = none := by
  constructor
  · exact C5_memory_type_selection.1 _ 3 1 rfl
  · refine C5_memory_type_selection.2 _ _
      { memory_type_bits := 1, prefers_dedicated_allocation := true
        requires_dedicated_allocation := false, layout_size := 4096 } (by decide) ?_
    intro i hi
    rcases hi with ⟨mt, hmt, hbit, hfl⟩
    cases i with
    | zero =>
      rw [List.getElem?_cons_zero] at hmt
      cases Option.some.inj hmt
      simp at hfl
    | succ m =>
      rw [List.getElem?_cons_succ] at hmt
      simp at hmt

/-- C6: `prepare_next_image` is total on every ring state reachable from
construction (ring size at least 1): it returns a handle without any
precondition on the timelines.  In this embedding the function is a pure
function of the ring bookkeeping alone — it takes no timeline state and
performs no wait; the only blocking operation of the protocol is the
handle's separate `blocking_wait_point` wait. -/
theorem C6_prepare_total_on_reachable :
    ∀ (n k : Nat) (hs : List SwapchainFrameHandle) (st : SwapchainState), 1 ≤ n →
      prepareSteps (Swapchain.new n) k = some (hs, st) →
      (prepare_next_image st).isSome = true := by
  intro n k hs st hn hrun
  rw [prepareSteps_eq n hn k] at hrun
  have hst : st = expectedState n k := (congrArg Prod.snd (Option.some.inj hrun)).symm
  rw [hst, prepare_expectedState n k hn]
  rfl

theorem C6_prepare_total_on_reachable_witness :
    (prepare_next_image (Swapchain.new 1)).isSome = true :=
  C6_prepare_total_on_reachable 1 0 [] (Swapchain.new 1) (by decide) rfl

/-- C7: two entries of the server's format enumeration that resolve to the
same Vulkan format (even with different DRM modifiers) end up merged in one
descriptor: both variants are in that descriptor's variant list, and exactly
one entry of the enumeration map carries that format key. -/
theorem C7_merge_same_format :
    ∀ (l : List ServerFormatEntry) (v1 v2 : ServerFormatEntry) (f : Format)
      (fc1 fc2 : DrmFourcc),
      v1 ∈ l → v2 ∈ l →
      resolveEntry v1 = some (fc1, f) → resolveEntry v2 = some (fc2, f) →
      v1.drm_modifier ≠ v2.drm_modifier →
      variantOf v1 ∈ lookupVariants f (DmatexFormat.enumerate l) ∧
        variantOf v2 ∈ lookupVariants f (DmatexFormat.enumerate l) ∧
        (DmatexFormat.enumerate l).countP (fun p => decide (p.1 = f)) = 1 := by
  intro l v1 v2 f fc1 fc2 h1 h2 hr1 hr2 hmod
  have hmem1 : variantOf v1 ∈ lookupVariants f (DmatexFormat.enumerate l) := by
    rw [lookupVariants_enumerate]
    exact List.mem_map_of_mem _ (List.mem_filter.mpr ⟨h1, by simp [resolvesTo, hr1]⟩)
  have hmem2 : variantOf v2 ∈ lookupVariants f (DmatexFormat.enumerate l) := by
    rw [lookupVariants_enumerate]
    exact List.mem_map_of_mem _ (List.mem_filter.mpr ⟨h2, by simp [resolvesTo, hr2]⟩)
  refine ⟨hmem1, hmem2, ?_⟩
  cases hfind : (DmatexFormat.enumerate l).find? (fun p => decide (p.1 = f)) with
  | none =>
    exfalso
    have : lookupVariants f (DmatexFormat.enumerate l) = [] := by
      rw [lookupVariants, hfind]
    rw [this] at hmem1
    cases hmem1
  | some p =>
    obtain ⟨pf, pd⟩ := p
    have hp1 : pf = f := by
      have hp0 := List.find?_some hfind
      simpa using hp0
    have hpm : (pf, pd) ∈ DmatexFormat.enumerate l := List.mem_of_find?_eq_some hfind
    rw [hp1] at hpm
    exact countP_key_eq_one _ f pd (keys_nodup_enumerateAux l [] (by simp)) hpm

theorem C7_merge_same_format_witness :
    variantOf { format := 0x34325241, is_srgb := false, drm_modifier := 0, planes := 1 } ∈
        lookupVariants Format.B8G8R8A8_UNORM (DmatexFormat.enumerate
          [{ format := 0x34325241, is_srgb := false, drm_modifier := 0, planes := 1 },
           { format := 0x34325241, is_srgb := false, drm_modifier := 1, planes := 1 }]) ∧
      variantOf { format := 0x34325241, is_srgb := false, drm_modifier := 1, planes := 1 } ∈
        lookupVariants Format.B8G8R8A8_UNORM (DmatexFormat.enumerate
          [{ format := 0x34325241, is_srgb := false, drm_modifier := 0, planes := 1 },
           { format := 0x34325241, is_srgb := false, drm_modifier := 1, planes := 1 }]) ∧
      (DmatexFormat.enumerate
          [{ format := 0x34325241, is_srgb := false, drm_modifier := 0, planes := 1 },
           { format := 0x34325241, is_srgb := false, drm_modifier := 1, planes := 1 }]).countP
        (fun p => decide (p.1 = Format.B8G8R8A8_UNORM)) = 1 :=
  C7_merge_same_format _ _ _ Format.B8G8R8A8_UNORM DrmFourcc.Argb8888 DrmFourcc.Argb8888
    (by decide) (by decide) (by decide) (by decide) (by decide)

/-- C8: the fourcc → Vulkan format mapping and the SRGB conversion are pure
functions; `Argb8888` maps to `B8G8R8A8_UNORM` — a 4-byte-per-pixel
unsigned-normalized format whose little-endian byte order `B,G,R,A` is the
packed alpha-first `ARGB8888` layout — and its SRGB conversion exists
(`B8G8R8A8_SRGB`). -/
theorem C8_format_mapping :
    Format.from_drm_fourcc DrmFourcc.Argb8888 = some Format.B8G8R8A8_UNORM ∧
      Format.bytes_per_pixel Format.B8G8R8A8_UNORM = some 4 ∧
      Format.is_unorm Format.B8G8R8A8_UNORM = true ∧
      Format.to_srgb Format.B8G8R8A8_UNORM = some Format.B8G8R8A8_SRGB :=
  ⟨rfl, rfl, rfl, rfl⟩

/-- C10: `DmatexFormat::enumerate` never fails because of a malformed entry:
entries whose fourcc does not parse, has no Vulkan mapping, or whose SRGB
conversion is unavailable are skipped, and the result is exactly the one
built from the surviving entries. -/
theorem C10_enumerate_skips_unresolvable :
    ∀ l : List ServerFormatEntry,
      DmatexFormat.enumerate l =
        DmatexFormat.enumerate (l.filter (fun v => (resolveEntry v).isSome)) := by
  have haux : ∀ (l : List ServerFormatEntry) (out : List (Format × DmatexFormat)),
      enumerateAux l out = enumerateAux (l.filter (fun v => (resolveEntry v).isSome)) out := by
    intro l
    induction l with
    | nil => intro out; rfl
    | cons v rest ih =>
      intro out
      cases hv : resolveEntry v with
      | none =>
        rw [List.filter_cons_of_neg (by simp [hv])]
        simp only [enumerateAux, hv]
        exact ih out
      | some p =>
        obtain ⟨fc, g⟩ := p
        rw [List.filter_cons_of_pos (by simp [hv])]
        simp only [enumerateAux, hv]
        exact ih _
  intro l
  exact haux l []

/-- C9: on every ring state reachable from construction of a ring of `n ≥ 1`
slots, every slot's stored release point is even and the cursor is strictly
below the slot count, and every handle ever returned has an odd
`server_acquire` and even `previous_server_release` / `next_server_release`. -/
theorem C9_parity_invariant :
    ∀ (n k : Nat) (hs : List SwapchainFrameHandle) (st : SwapchainState), 1 ≤ n →
      prepareSteps (Swapchain.new n) k = some (hs, st) →
      (∀ p ∈ st.images, p % 2 = 0) ∧ st.next_image < st.images.length ∧
        ∀ h ∈ hs, h.server_acquire % 2 = 1 ∧ h.previous_server_release % 2 = 0 ∧
          h.next_server_release % 2 = 0 := by
  intro n k hs st hn hrun
  rw [prepareSteps_eq n hn k] at hrun
  have hpair := Option.some.inj hrun
  have hst : st = expectedState n k := (congrArg Prod.snd hpair).symm
  have hhs : hs = (List.range k).map (expectedHandle n) := (congrArg Prod.fst hpair).symm
  subst hst
  subst hhs
  refine ⟨?_, ?_, ?_⟩
  · intro p hp
    rcases List.mem_map.mp hp with ⟨j, -, rfl⟩
    exact Nat.mul_mod_right 2 _
  · show k % n < (expectedImages n k).length
    rw [expectedImages, List.length_map, List.length_range]
    exact Nat.mod_lt _ hn
  · intro h hh
    rcases List.mem_map.mp hh with ⟨i, -, rfl⟩
    refine ⟨?_, ?_, ?_⟩
    · show (2 * (i / n) + 1) % 2 = 1
      rw [Nat.mul_add_mod]
    · show (2 * (i / n)) % 2 = 0
      exact Nat.mul_mod_right 2 _
    · show (2 * (i / n) + 2) % 2 = 0
      rw [Nat.mul_add_mod]

theorem C9_parity_invariant_witness :
    (∀ p ∈ ({ images := [2], next_image := 0 } : SwapchainState).images, p % 2 = 0) ∧
      ({ images := [2], next_image := 0 } : SwapchainState).next_image <
        ({ images := [2], next_image := 0 } : SwapchainState).images.length ∧
      ∀ h ∈ [({ previous_server_release := 0, server_acquire := 1
                next_server_release := 2, image := 0 } : SwapchainFrameHandle)],
        h.server_acquire % 2 = 1 ∧ h.previous_server_release % 2 = 0 ∧
          h.next_server_release % 2 = 0 :=
  C9_parity_invariant 1 1
    [{ previous_server_release := 0, server_acquire := 1
       next_server_release := 2, image := 0 }]
    { images := [2], next_image := 0 } (by decide) (by decide)

end Cme
